import Mathlib

/-!
Shallow embedding of `pyod/models/cd.py` (Cook's distance outlier detection).

Conventions:
* Machine floats are modelled by real numbers; `np.sqrt` is `Real.sqrt`.
* Matrices are `Matrix (Fin n) (Fin p) ℝ`.
* External collaborators (numpy / sklearn routines that are not part of this
  repository) are modelled as follows:
  - `np.linalg.pinv` : a function parameter `pinv`; where a claim depends on
    it being the Moore–Penrose pseudo-inverse, the defining Penrose
    conditions appear as hypotheses.
  - `np.linalg.matrix_rank` : `Matrix.rank` (exact rank, the idealisation of
    the SVD-based numerical rank).
  - `sklearn.linear_model.LinearRegression` : a structure `LinModel`
    (coefficients + intercept) with `predict X = X·coef + intercept`; the
    least-squares fitting routine itself is a function parameter `lsq`.
  - `sklearn.decomposition.PCA(whiten=True)` : a structure `PCAState`
    (per-feature mean and a projection matrix); `transform` subtracts the
    mean and applies the projection.  The fitting routine is a function
    parameter `pcaFit`.  The default number of components, `min(n, p)`,
    is taken to be `p` (the `n ≥ p` case).
  - input validation (`check_array`, reshape fallback) and
    `_set_n_classes` are shape plumbing / bookkeeping and are absorbed by
    the typing of the embedding.
* `BaseDetector._process_decision_scores` is code of this repository that is
  not under `src/`; it is modelled from the spec (see `quantile`,
  and the threshold/label construction inside `CD.fit`).
-/

noncomputable section

open scoped BigOperators
open Matrix

abbrev Mat (n p : ℕ) : Type := Matrix (Fin n) (Fin p) ℝ

/-- sklearn `LinearRegression` fitted state: coefficients and intercept
(external collaborator; only its `predict` semantics matter here). -/
structure LinModel (p : ℕ) where
  coef_ : Fin p → ℝ
  intercept_ : ℝ

/-- sklearn `model.predict(X)` : `X @ coef_ + intercept_`, row-wise. -/
def LinModel.predict {n p : ℕ} (model : LinModel p) (X : Mat n p) : Fin n → ℝ :=
  fun i => (∑ j, X i j * model.coef_ j) + model.intercept_

/-- sklearn `PCA(whiten=True)` fitted state: per-feature mean and the
(whitening-scaled) component matrix (external collaborator). -/
structure PCAState (p : ℕ) where
  mean_ : Fin p → ℝ
  components_ : Matrix (Fin p) (Fin p) ℝ

/-- `whiten_data(X, pca)` from the source: `pca.transform(X)`, i.e.
row-wise `(x - mean) @ components_.T`. -/
def whiten_data {n p : ℕ} (X : Mat n p) (pca : PCAState p) : Mat n p :=
  Matrix.of fun i j => ∑ k, (X i k - pca.mean_ k) * pca.components_ j k

/-- `Cooks_dist(X, y, model)` from the source, with `np.linalg.pinv`
abstracted as the parameter `pinv`:

    leverage = (X * np.linalg.pinv(X).T).sum(1)
    rank = np.linalg.matrix_rank(X)
    df = X.shape[0] - rank
    residuals = y - model.predict(X)
    mse = np.dot(residuals, residuals) / df
    residuals_studentized = residuals / np.sqrt(mse) / np.sqrt(1 - leverage)
    distance_ = residuals_studentized ** 2 / X.shape[1]
    distance_ *= leverage / (1 - leverage)
-/
def Cooks_dist {n p : ℕ} (pinv : Mat n p → Mat p n)
    (X : Mat n p) (y : Fin n → ℝ) (model : LinModel p) : Fin n → ℝ :=
  let leverage : Fin n → ℝ := fun i => ∑ j, X i j * (pinv X)ᵀ i j
  let rank : ℕ := X.rank
  let df : ℝ := ((n - rank : ℕ) : ℝ)
  let residuals : Fin n → ℝ := fun i => y i - model.predict X i
  let mse : ℝ := (∑ i, residuals i * residuals i) / df
  let residuals_studentized : Fin n → ℝ :=
    fun i => residuals i / Real.sqrt mse / Real.sqrt (1 - leverage i)
  fun i => residuals_studentized i ^ 2 / (p : ℝ) * (leverage i / (1 - leverage i))

/-- Insert into a sorted list (ascending). -/
def insertSorted (x : ℝ) : List ℝ → List ℝ
  | [] => [x]
  | y :: ys => if x ≤ y then x :: y :: ys else y :: insertSorted x ys

/-- Insertion sort, ascending. -/
def sortScores : List ℝ → List ℝ
  | [] => []
  | x :: xs => insertSorted x (sortScores xs)

/-- Modelled from the spec: the threshold produced by the shared
base-detector lifecycle (`_process_decision_scores`, not under `src/`) is
"the (1 − contamination)-quantile of the training Influence Scores"
(spec §4.4, §6).  Modelled as the nearest-rank quantile: the
`⌈q·len⌉`-th smallest element of the list. -/
def quantile (xs : List ℝ) (q : ℝ) : ℝ :=
  (sortScores xs).getD (Int.ceil (q * (xs.length : ℝ)) - 1).toNat 0

/-- The state a successful `fit` installs on the detector instance:
`self.model`, `self.pca` (only with whitening), `self.decision_scores_`,
`self.threshold_`, `self.labels_`. -/
structure Fitted (p : ℕ) where
  model : LinModel p
  pca : Option (PCAState p)
  decision_scores_ : List ℝ
  threshold_ : ℝ
  labels_ : List ℕ

/-- The `CD` detector instance: constructor arguments plus the
optionally-present fitted state. -/
structure CD (p : ℕ) where
  whitening : Bool
  rule_of_thumb : Bool
  contamination : ℝ
  fitted : Option (Fitted p)

/-- `CD.__init__(whitening=True, contamination=0.1, rule_of_thumb=False)`. -/
def CD.mk' (p : ℕ) (whitening : Bool := true) (contamination : ℝ := 0.1)
    (rule_of_thumb : Bool := false) : CD p :=
  { whitening := whitening, rule_of_thumb := rule_of_thumb,
    contamination := contamination, fitted := none }

/-- `CD.fit(X, y)` from the source.  External routines appear as parameters:
`pinv` (numpy pseudo-inverse), `pcaFit` (PCA fitting), `lsq` (the
least-squares solver behind `LinearRegression.fit`).  The threshold/label
derivation (`_process_decision_scores`, not under `src/`) is modelled from
the spec: threshold is the `(1 - contamination)`-quantile of the scores and
labels are 1 where score > threshold, else 0. -/
def CD.fit {n p : ℕ} (pinv : Mat n p → Mat p n)
    (pcaFit : Mat n p → PCAState p)
    (lsq : Mat n p → (Fin n → ℝ) → LinModel p)
    (cd : CD p) (X : Mat n p) (y : Fin n → ℝ) : CD p :=
  -- if self.whitening: self.pca = PCA(whiten=True).fit(X); X = whiten_data(X, self.pca)
  let pcaOpt : Option (PCAState p) := if cd.whitening then some (pcaFit X) else none
  let Xf : Mat n p := if cd.whitening then whiten_data X (pcaFit X) else X
  -- self.model.fit(X, y)
  let model : LinModel p := lsq Xf y
  -- distance_ = Cooks_dist(X, y, self.model)
  let distance_ : Fin n → ℝ := Cooks_dist pinv Xf y model
  -- if self.rule_of_thumb:
  --   influence_threshold_ = 4 / X.shape[0]
  --   self.contamination = sum(distance_ > influence_threshold_) / X.shape[0]
  let influence_threshold_ : ℝ := 4 / (n : ℝ)
  let contamination' : ℝ :=
    if cd.rule_of_thumb then
      (((Finset.univ.filter fun i => influence_threshold_ < distance_ i).card : ℕ) : ℝ) / (n : ℝ)
    else cd.contamination
  -- self.decision_scores_ = distance_; self._process_decision_scores()
  let scores : List ℝ := List.ofFn distance_
  let threshold_ : ℝ := quantile scores (1 - contamination')
  let labels_ : List ℕ := scores.map fun s => if threshold_ < s then 1 else 0
  { cd with contamination := contamination',
            fitted := some ⟨model, pcaOpt, scores, threshold_, labels_⟩ }

/-- All columns of `M` except the last: `X[:, :-1]`. -/
def colsInit {m p : ℕ} (M : Mat m (p + 1)) : Mat m p :=
  Matrix.of fun i j => M i (Fin.castSucc j)

/-- The last column of `M`: `X[:, -1]`. -/
def lastCol {m p : ℕ} (M : Mat m (p + 1)) : Fin m → ℝ :=
  fun i => M i (Fin.last p)

/-- `CD.decision_function(X)` from the source, with the state threaded
explicitly (first component of the result: the detector state after the
call; the source method never assigns to `self`).  `check_is_fitted`
raising `NotFittedError` is the `none` branch; reading the absent
`self.pca` attribute is the `AttributeError` branch. -/
def CD.decision_function {m p : ℕ} (pinv : Mat m p → Mat p m)
    (cd : CD p) (M : Mat m (p + 1)) : CD p × Except String (Fin m → ℝ) :=
  match cd.fitted with
  | none => (cd, Except.error "NotFittedError")
  | some f =>
    -- y = X[:,-1]; X = X[:,:-1]
    let y : Fin m → ℝ := lastCol M
    let X : Mat m p := colsInit M
    if cd.whitening then
      match f.pca with
      | some pca => (cd, Except.ok (Cooks_dist pinv (whiten_data X pca) y f.model))
      | none => (cd, Except.error "AttributeError")
    else
      (cd, Except.ok (Cooks_dist pinv X y f.model))

/-- The stored training scores (`self.decision_scores_`), empty when unfitted. -/
def scoresOf {p : ℕ} (cd : CD p) : List ℝ :=
  match cd.fitted with
  | some f => f.decision_scores_
  | none => []

/-- The stored threshold (`self.threshold_`), 0 when unfitted. -/
def thresholdOf {p : ℕ} (cd : CD p) : ℝ :=
  match cd.fitted with
  | some f => f.threshold_
  | none => 0

/-- The stored labels (`self.labels_`), empty when unfitted. -/
def labelsOf {p : ℕ} (cd : CD p) : List ℕ :=
  match cd.fitted with
  | some f => f.labels_
  | none => []

/-- Reassemble a feature matrix and target vector into the single
combined matrix that `decision_function` expects (target as last column). -/
def appendTarget {n p : ℕ} (X : Mat n p) (y : Fin n → ℝ) : Mat n (p + 1) :=
  Matrix.of fun i => Fin.snoc (X i) (y i)

/-! ## Theorems -/

set_option maxHeartbeats 1000000 in
/-- C1: `Cooks_dist` returns the vector with
`distance[i] = (residuals_studentized[i]^2 / p) * (leverage[i] / (1 - leverage[i]))`,
where `leverage` is the row-wise sum of `X` elementwise-multiplied with
`pinv(X)` transposed, `residuals = y - model.predict(X)`,
`mse = (residualsᵀ·residuals) / (n - rank X)`, and
`residuals_studentized[i] = residuals[i] / sqrt(mse) / sqrt(1 - leverage[i])`. -/
theorem Cooks_dist_formula {n p : ℕ} (pinv : Mat n p → Mat p n)
    (X : Mat n p) (y : Fin n → ℝ) (model : LinModel p) (i : Fin n) :
    Cooks_dist pinv X y model i =
      ((y i - model.predict X i) /
          Real.sqrt
            ((∑ k, (y k - model.predict X k) * (y k - model.predict X k)) /
              ((n - X.rank : ℕ) : ℝ)) /
          Real.sqrt (1 - ∑ j, X i j * (pinv X)ᵀ i j)) ^ 2 / (p : ℝ) *
        ((∑ j, X i j * (pinv X)ᵀ i j) / (1 - ∑ j, X i j * (pinv X)ᵀ i j)) := by
  simp only [Cooks_dist]

/-- C2: `decision_function` splits the last column off as the target `y` and
the preceding columns as `X`, applies the stored whitening transform when
whitening is enabled, recomputes Cook's distance with the model stored at fit
time, and returns the raw score vector (no threshold applied). -/
theorem decision_function_splits_and_scores {m p : ℕ} (pinv : Mat m p → Mat p m)
    (cd : CD p) (f : Fitted p) (M : Mat m (p + 1)) (hf : cd.fitted = some f) :
    (cd.whitening = false →
      (CD.decision_function pinv cd M).2 =
        Except.ok (Cooks_dist pinv (colsInit M) (lastCol M) f.model)) ∧
    (∀ pca, cd.whitening = true → f.pca = some pca →
      (CD.decision_function pinv cd M).2 =
        Except.ok (Cooks_dist pinv (whiten_data (colsInit M) pca) (lastCol M) f.model)) := by
  constructor
  · intro hw
    simp [CD.decision_function, hf, hw]
  · intro pca hw hpca
    simp [CD.decision_function, hf, hw, hpca]

/-- Concrete fitted model for the C2 witness. -/
def mdlW : LinModel 1 := ⟨![0], 0⟩

/-- Concrete fitted state for the C2 witness. -/
def fW : Fitted 1 := ⟨mdlW, none, [], 0, []⟩

/-- Concrete fitted detector (whitening disabled) for the C2 witness. -/
def cdW : CD 1 := ⟨false, false, 0.1, some fW⟩

/-- Concrete pseudo-inverse stub for the C2 witness. -/
def pinvW : Mat 2 1 → Mat 1 2 := fun _ => 0

/-- Concrete score-input matrix for the C2 witness. -/
def MW : Mat 2 (1 + 1) := 0

/-- Witness for C2 at a concrete fitted detector. -/
theorem decision_function_splits_and_scores_witness :
    cdW.fitted = some fW ∧
    ((cdW.whitening = false →
      (CD.decision_function pinvW cdW MW).2 =
        Except.ok (Cooks_dist pinvW (colsInit MW) (lastCol MW) fW.model)) ∧
    (∀ pca, cdW.whitening = true → fW.pca = some pca →
      (CD.decision_function pinvW cdW MW).2 =
        Except.ok (Cooks_dist pinvW (whiten_data (colsInit MW) pca) (lastCol MW) fW.model))) :=
  ⟨rfl, decision_function_splits_and_scores pinvW cdW fW MW rfl⟩

/-- C6: calling `decision_function` on a not-yet-fitted detector yields the
explicit not-fitted error (the `check_is_fitted` guard fires before any
computation on the input), rather than a downstream fault or a result. -/
theorem decision_function_not_fitted {m p : ℕ} (pinv : Mat m p → Mat p m)
    (cd : CD p) (M : Mat m (p + 1)) (h : cd.fitted = none) :
    (CD.decision_function pinv cd M).2 = Except.error "NotFittedError" := by
  simp [CD.decision_function, h]

/-- Witness for C6 at a concrete unfitted detector. -/
theorem decision_function_not_fitted_witness :
    (CD.mk' 1).fitted = none ∧
    (CD.decision_function (fun _ => 0) (CD.mk' 1) (0 : Mat 2 2)).2 =
      Except.error "NotFittedError" :=
  ⟨rfl, decision_function_not_fitted (fun _ => 0) (CD.mk' 1) (0 : Mat 2 2) rfl⟩

/-- C9: `decision_function` leaves every piece of detector state unchanged:
the configuration flags, the contamination attribute, and the whole fitted
state (model, pca, decision scores, threshold, labels). -/
theorem decision_function_frame {m p : ℕ} (pinv : Mat m p → Mat p m)
    (cd : CD p) (M : Mat m (p + 1)) :
    (CD.decision_function pinv cd M).1.whitening = cd.whitening ∧
    (CD.decision_function pinv cd M).1.rule_of_thumb = cd.rule_of_thumb ∧
    (CD.decision_function pinv cd M).1.contamination = cd.contamination ∧
    (CD.decision_function pinv cd M).1.fitted = cd.fitted := by
  rcases cd with ⟨w, r, c, fitted⟩
  rcases fitted with _ | f
  · exact ⟨rfl, rfl, rfl, rfl⟩
  · rcases f with ⟨mo, pcaOpt, s, t, l⟩
    rcases pcaOpt with _ | pca <;> cases w <;> exact ⟨rfl, rfl, rfl, rfl⟩

/-- The design matrix actually used by `fit` (whitened when enabled). -/
def fitDesign {n p : ℕ} (pcaFit : Mat n p → PCAState p) (cd : CD p) (X : Mat n p) : Mat n p :=
  if cd.whitening then whiten_data X (pcaFit X) else X

/-- C4: after `fit` with `rule_of_thumb = true`, the exposed contamination
attribute equals the number of training influence scores strictly greater
than `4 / n`, divided by `n`; the second conjunct identifies those scores
with the stored `decision_scores_`. -/
theorem fit_rule_of_thumb_contamination {n p : ℕ} (pinv : Mat n p → Mat p n)
    (pcaFit : Mat n p → PCAState p) (lsq : Mat n p → (Fin n → ℝ) → LinModel p)
    (cd : CD p) (X : Mat n p) (y : Fin n → ℝ) (hrot : cd.rule_of_thumb = true) :
    (CD.fit pinv pcaFit lsq cd X y).contamination =
      (((Finset.univ.filter fun i : Fin n =>
          4 / (n : ℝ) <
            Cooks_dist pinv (fitDesign pcaFit cd X) y (lsq (fitDesign pcaFit cd X) y) i).card :
        ℕ) : ℝ) / (n : ℝ) ∧
    scoresOf (CD.fit pinv pcaFit lsq cd X y) =
      List.ofFn (Cooks_dist pinv (fitDesign pcaFit cd X) y (lsq (fitDesign pcaFit cd X) y)) := by
  constructor <;> simp [CD.fit, scoresOf, fitDesign, hrot]

/-- Concrete inputs for the C4 witness. -/
def cdR : CD 1 := ⟨false, true, 0.1, none⟩

/-- Concrete pseudo-inverse stub for the C4 witness. -/
def pinvR : Mat 1 1 → Mat 1 1 := fun _ => 0

/-- Concrete PCA-fit stub for the C4 witness. -/
def pcaFitR : Mat 1 1 → PCAState 1 := fun _ => ⟨0, 0⟩

/-- Concrete least-squares stub for the C4 witness. -/
def lsqR : Mat 1 1 → (Fin 1 → ℝ) → LinModel 1 := fun _ _ => ⟨![0], 0⟩

/-- Witness for C4 at a concrete rule-of-thumb detector. -/
theorem fit_rule_of_thumb_contamination_witness :
    cdR.rule_of_thumb = true ∧
    ((CD.fit pinvR pcaFitR lsqR cdR (0 : Mat 1 1) 0).contamination =
      (((Finset.univ.filter fun i : Fin 1 =>
          4 / ((1 : ℕ) : ℝ) <
            Cooks_dist pinvR (fitDesign pcaFitR cdR 0) 0 (lsqR (fitDesign pcaFitR cdR 0) 0) i).card :
        ℕ) : ℝ) / ((1 : ℕ) : ℝ) ∧
    scoresOf (CD.fit pinvR pcaFitR lsqR cdR (0 : Mat 1 1) 0) =
      List.ofFn (Cooks_dist pinvR (fitDesign pcaFitR cdR 0) 0
        (lsqR (fitDesign pcaFitR cdR 0) 0))) :=
  ⟨rfl, fit_rule_of_thumb_contamination pinvR pcaFitR lsqR cdR (0 : Mat 1 1) 0 rfl⟩

/-- C7: `fit` is deterministic and idempotent: fitting the same instance a
second time with identical inputs yields identical stored decision scores
and identical stored threshold. -/
theorem fit_idempotent {n p : ℕ} (pinv : Mat n p → Mat p n)
    (pcaFit : Mat n p → PCAState p) (lsq : Mat n p → (Fin n → ℝ) → LinModel p)
    (cd : CD p) (X : Mat n p) (y : Fin n → ℝ) :
    scoresOf (CD.fit pinv pcaFit lsq (CD.fit pinv pcaFit lsq cd X y) X y) =
      scoresOf (CD.fit pinv pcaFit lsq cd X y) ∧
    thresholdOf (CD.fit pinv pcaFit lsq (CD.fit pinv pcaFit lsq cd X y) X y) =
      thresholdOf (CD.fit pinv pcaFit lsq cd X y) := by
  cases hw : cd.whitening <;> cases hr : cd.rule_of_thumb <;>
    simp [CD.fit, scoresOf, thresholdOf, hw, hr]

/-- C5: scoring the exact training data, reassembled with the target as the
last column, on the just-fitted detector reproduces `decision_scores_`
(for whitening enabled or disabled; equality is exact in real arithmetic). -/
theorem fit_then_score_reproduces_scores {n p : ℕ} (pinv : Mat n p → Mat p n)
    (pcaFit : Mat n p → PCAState p) (lsq : Mat n p → (Fin n → ℝ) → LinModel p)
    (cd : CD p) (X : Mat n p) (y : Fin n → ℝ) :
    Except.map List.ofFn
        (CD.decision_function pinv (CD.fit pinv pcaFit lsq cd X y) (appendTarget X y)).2 =
      Except.ok (scoresOf (CD.fit pinv pcaFit lsq cd X y)) := by
  have hX : colsInit (appendTarget X y) = X := by
    ext i j
    simp [colsInit, appendTarget, Fin.snoc_castSucc]
  have hy : lastCol (appendTarget X y) = y := by
    funext i
    simp [lastCol, appendTarget]
  cases hw : cd.whitening <;>
    simp [CD.fit, CD.decision_function, scoresOf, hw, hX, hy, Except.map]

/-- C8: every entry of the Cook's distance vector is nonnegative wherever
the leverage is `< 1` and the degrees of freedom `n - rank X` are positive.
The hypotheses `hsym` and `hP` are the defining Penrose conditions of the
Moore–Penrose pseudo-inverse computed by `np.linalg.pinv` (the hat matrix
`X·pinv(X)` is symmetric and `X·pinv(X)·X = X`). -/
theorem Cooks_dist_nonneg {n p : ℕ} (pinv : Mat n p → Mat p n)
    (X : Mat n p) (y : Fin n → ℝ) (model : LinModel p) (i : Fin n)
    (hsym : (X * pinv X)ᵀ = X * pinv X)
    (hP : X * pinv X * X = X)
    (hlev : ∑ j, X i j * (pinv X)ᵀ i j < 1)
    (hdf : 0 < n - X.rank) :
    0 ≤ Cooks_dist pinv X y model i := by
  have hlev_eq : (∑ j, X i j * (pinv X)ᵀ i j) = (X * pinv X) i i := by
    rw [Matrix.mul_apply]
    exact Finset.sum_congr rfl fun j _ => by rw [Matrix.transpose_apply]
  have hidem : (X * pinv X) * (X * pinv X) = X * pinv X := by
    calc (X * pinv X) * (X * pinv X) = (X * pinv X * X) * pinv X := by
          rw [Matrix.mul_assoc (X * pinv X) X (pinv X)]
      _ = X * pinv X := by rw [hP]
  have hlev0 : 0 ≤ (X * pinv X) i i := by
    have h2 : (X * pinv X) i i = ∑ j, (X * pinv X) i j * (X * pinv X) i j := by
      conv_lhs => rw [← hidem]
      rw [Matrix.mul_apply]
      refine Finset.sum_congr rfl fun j _ => ?_
      have hji : (X * pinv X) j i = (X * pinv X) i j := by
        have h := congrFun (congrFun hsym i) j
        rw [Matrix.transpose_apply] at h
        exact h
      rw [hji]
    rw [h2]
    exact Finset.sum_nonneg fun j _ => mul_self_nonneg _
  rw [← hlev_eq] at hlev0
  unfold Cooks_dist
  exact mul_nonneg (div_nonneg (sq_nonneg _) (Nat.cast_nonneg p))
    (div_nonneg hlev0 (by linarith))

/-!
Concrete training instance, used by several witnesses/counterexamples:
`X0 = [[1],[2],[3],[4]]`, `y0 = [0,1,1,2]`, no whitening, rule of thumb on.
`pinv0` returns `np.linalg.pinv(X0) = [[1/30, 2/30, 3/30, 4/30]]`
(the Penrose conditions are verified below), and `lsq0` returns the actual
ordinary-least-squares fit of `y0` on `X0`: slope `3/5`, intercept `-1/2`.
-/

/-- Concrete design matrix `[[1],[2],[3],[4]]`. -/
def X0 : Mat 4 1 := Matrix.of ![![1], ![2], ![3], ![4]]

/-- Concrete target vector `[0, 1, 1, 2]`. -/
def y0 : Fin 4 → ℝ := ![0, 1, 1, 2]

/-- The value of `np.linalg.pinv` at `X0` (constant elsewhere): the
Moore–Penrose pseudo-inverse of a nonzero column `v` is `vᵀ / ‖v‖²`,
here `[[1,2,3,4]] / 30`. -/
def pinv0 : Mat 4 1 → Mat 1 4 := fun _ => Matrix.of ![![1/30, 2/30, 3/30, 4/30]]

/-- The ordinary-least-squares fit of `y0` on `X0`: `ŷ = (3/5)·x - 1/2`. -/
def model0 : LinModel 1 := ⟨![3/5], -(1/2)⟩

/-- The value of sklearn's least-squares solver at `(X0, y0)`. -/
def lsq0 : Mat 4 1 → (Fin 4 → ℝ) → LinModel 1 := fun _ _ => model0

/-- PCA-fit stub (whitening is disabled in `cd0`, so it is never used). -/
def pcaFit0 : Mat 4 1 → PCAState 1 := fun _ => ⟨0, 0⟩

/-- Detector configured with `whitening=False`, `rule_of_thumb=True`. -/
def cd0 : CD 1 := ⟨false, true, 0.1, none⟩

/-- The detector after `fit(X0, y0)`. -/
def cd0' : CD 1 := CD.fit pinv0 pcaFit0 lsq0 cd0 X0 y0

/-- The hat matrix of `X0` from `pinv0` is symmetric (Penrose condition). -/
lemma X0_hat_symm : (X0 * pinv0 X0)ᵀ = X0 * pinv0 X0 := by
  ext i j
  fin_cases i <;> fin_cases j <;>
    norm_num [Matrix.mul_apply, Matrix.transpose_apply, X0, pinv0, Fin.sum_univ_succ]

/-- `X0 · pinv0(X0) · X0 = X0` (Penrose condition). -/
lemma X0_hat_proj : X0 * pinv0 X0 * X0 = X0 := by
  ext i j
  fin_cases i <;> fin_cases j <;>
    norm_num [Matrix.mul_apply, X0, pinv0, Fin.sum_univ_succ]

/-- Witness for C8 at the concrete instance `(X0, y0, model0)`, row 0. -/
theorem Cooks_dist_nonneg_witness :
    (X0 * pinv0 X0)ᵀ = X0 * pinv0 X0 ∧
    X0 * pinv0 X0 * X0 = X0 ∧
    (∑ j, X0 0 j * (pinv0 X0)ᵀ 0 j) < 1 ∧
    0 < 4 - X0.rank ∧
    0 ≤ Cooks_dist pinv0 X0 y0 model0 0 := by
  have hlev : (∑ j, X0 0 j * (pinv0 X0)ᵀ 0 j) < 1 := by
    norm_num [X0, pinv0, Matrix.transpose_apply, Fin.sum_univ_succ]
  have hdf : 0 < 4 - X0.rank := by
    have h := Matrix.rank_le_width X0
    omega
  exact ⟨X0_hat_symm, X0_hat_proj, hlev, hdf,
    Cooks_dist_nonneg pinv0 X0 y0 model0 0 X0_hat_symm X0_hat_proj hlev hdf⟩

/-- Squared studentized residual without square roots:
`(r / sqrt a / sqrt (1-l))² = r² / (a·(1-l))` for `a ≥ 0`, `l ≤ 1`. -/
lemma sq_div_sqrt_sqrt (r a l : ℝ) (ha : 0 ≤ a) (hl : l ≤ 1) :
    (r / Real.sqrt a / Real.sqrt (1 - l)) ^ 2 = r ^ 2 / (a * (1 - l)) := by
  rw [div_div, div_pow, mul_pow, Real.sq_sqrt ha, Real.sq_sqrt (by linarith)]

set_option maxHeartbeats 1000000 in
/-- Pointwise unfolding of `Cooks_dist` (shared helper). -/
lemma Cooks_dist_apply {n p : ℕ} (pinv : Mat n p → Mat p n)
    (X : Mat n p) (y : Fin n → ℝ) (model : LinModel p) (i : Fin n) :
    Cooks_dist pinv X y model i =
      ((y i - model.predict X i) /
          Real.sqrt
            ((∑ k, (y k - model.predict X k) * (y k - model.predict X k)) /
              ((n - X.rank : ℕ) : ℝ)) /
          Real.sqrt (1 - ∑ j, X i j * (pinv X)ᵀ i j)) ^ 2 / (p : ℝ) *
        ((∑ j, X i j * (pinv X)ᵀ i j) / (1 - ∑ j, X i j * (pinv X)ᵀ i j)) := by
  simp only [Cooks_dist]

/-- Square-root-free evaluation of `Cooks_dist` when the mse is nonnegative
and the leverage is at most 1. -/
lemma Cooks_dist_eval {n p : ℕ} (pinv : Mat n p → Mat p n) (X : Mat n p)
    (y : Fin n → ℝ) (model : LinModel p) (i : Fin n)
    (hmse : 0 ≤ (∑ k, (y k - model.predict X k) * (y k - model.predict X k)) /
      ((n - X.rank : ℕ) : ℝ))
    (hl : (∑ j, X i j * (pinv X)ᵀ i j) ≤ 1) :
    Cooks_dist pinv X y model i =
      (y i - model.predict X i) ^ 2 /
        (((∑ k, (y k - model.predict X k) * (y k - model.predict X k)) /
            ((n - X.rank : ℕ) : ℝ)) *
          (1 - ∑ j, X i j * (pinv X)ᵀ i j)) / (p : ℝ) *
        ((∑ j, X i j * (pinv X)ᵀ i j) / (1 - ∑ j, X i j * (pinv X)ᵀ i j)) := by
  rw [Cooks_dist_apply, sq_div_sqrt_sqrt _ _ _ hmse hl]

/-- `X0` has rank 1 (nonzero single column). -/
lemma X0_rank : X0.rank = 1 := by
  rw [Matrix.rank_eq_finrank_span_cols, Set.range_unique]
  refine finrank_span_singleton ?_
  intro h
  have h0 := congrFun h 0
  simp [X0, Matrix.transpose_apply] at h0

/-- Leverage values of the concrete instance: `[1/30, 4/30, 9/30, 16/30]`. -/
lemma X0_lev (i : Fin 4) :
    (∑ j, X0 i j * (pinv0 X0)ᵀ i j) = ![1/30, 4/30, 9/30, 16/30] i := by
  fin_cases i <;>
    norm_num [X0, pinv0, Matrix.transpose_apply, Fin.sum_univ_succ]

/-- Residual values of the concrete instance: `[-1/10, 3/10, -3/10, 1/10]`. -/
lemma X0_resid (i : Fin 4) :
    y0 i - model0.predict X0 i = ![-(1/10), 3/10, -(3/10), 1/10] i := by
  fin_cases i <;>
    norm_num [X0, y0, model0, LinModel.predict, Fin.sum_univ_succ]

/-- The mse of the concrete instance is `1/15`. -/
lemma X0_mse :
    (∑ k, (y0 k - model0.predict X0 k) * (y0 k - model0.predict X0 k)) /
      ((4 - X0.rank : ℕ) : ℝ) = 1 / 15 := by
  rw [X0_rank, Fin.sum_univ_four, X0_resid 0, X0_resid 1, X0_resid 2, X0_resid 3]
  norm_num

/-- Cook's distances of the concrete instance:
`[9/1682, 81/338, 81/98, 18/49]`. -/
lemma X0_dist (i : Fin 4) :
    Cooks_dist pinv0 X0 y0 model0 i = ![9/1682, 81/338, 81/98, 18/49] i := by
  have hmse0 : (0:ℝ) ≤
      (∑ k, (y0 k - model0.predict X0 k) * (y0 k - model0.predict X0 k)) /
        ((4 - X0.rank : ℕ) : ℝ) := by
    rw [X0_mse]; norm_num
  have hl : (∑ j, X0 i j * (pinv0 X0)ᵀ i j) ≤ 1 := by
    rw [X0_lev i]; fin_cases i <;> norm_num
  rw [Cooks_dist_eval pinv0 X0 y0 model0 i hmse0 hl, X0_mse, X0_lev i, X0_resid i]
  fin_cases i <;> norm_num

/-- No concrete training score exceeds the rule-of-thumb cutoff `4/n = 1`. -/
lemma X0_dist_le_one : ∀ i : Fin 4, ¬ (1 < Cooks_dist pinv0 X0 y0 model0 i) := by
  intro i
  rw [X0_dist i]
  fin_cases i <;> norm_num

/-- The recomputed contamination of the concrete fit is 0. -/
lemma cd0'_contamination : cd0'.contamination = 0 := by
  simp [cd0', CD.fit, cd0, lsq0, Finset.filter_eq_empty_iff, X0_dist_le_one]

/-- The stored decision scores of the concrete fit. -/
lemma cd0'_scores : scoresOf cd0' = [9/1682, 81/338, 81/98, 18/49] := by
  simp [cd0', CD.fit, cd0, lsq0, scoresOf, List.ofFn_succ, X0_dist]

/-- The stored threshold of the concrete fit: the `(1-0)`-quantile, i.e. the
largest training score `81/98`, not the rule-of-thumb cutoff `1`. -/
lemma cd0'_threshold : thresholdOf cd0' = 81/98 := by
  simp only [cd0', CD.fit, cd0, lsq0, thresholdOf]
  norm_num [Finset.filter_eq_empty_iff, X0_dist_le_one]
  simp [List.ofFn_succ, X0_dist]
  norm_num [quantile, sortScores, insertSorted]
  rfl

/-- C3 counterexample: for the concrete rule-of-thumb fit on `(X0, y0)` with
`n = 4` observations, the stored threshold is `81/98`, not `4/n`. -/
theorem fit_rule_of_thumb_threshold_ne : thresholdOf cd0' ≠ 4 / ((4 : ℕ) : ℝ) := by
  rw [cd0'_threshold]
  norm_num

/-- C3 amended: after `fit` with `rule_of_thumb = true`, the stored threshold
is the `(1 - c)`-quantile of the stored training scores, where `c` is the
recomputed contamination (the fraction of training scores strictly exceeding
`4/n`); the cutoff `4/n` enters only through that recomputed contamination
and is not itself stored as the threshold. -/
theorem fit_rule_of_thumb_threshold {n p : ℕ} (pinv : Mat n p → Mat p n)
    (pcaFit : Mat n p → PCAState p) (lsq : Mat n p → (Fin n → ℝ) → LinModel p)
    (cd : CD p) (X : Mat n p) (y : Fin n → ℝ) (hrot : cd.rule_of_thumb = true) :
    thresholdOf (CD.fit pinv pcaFit lsq cd X y) =
      quantile (scoresOf (CD.fit pinv pcaFit lsq cd X y))
        (1 - (CD.fit pinv pcaFit lsq cd X y).contamination) ∧
    (CD.fit pinv pcaFit lsq cd X y).contamination =
      (((Finset.univ.filter fun i : Fin n =>
          4 / (n : ℝ) <
            Cooks_dist pinv (fitDesign pcaFit cd X) y (lsq (fitDesign pcaFit cd X) y) i).card :
        ℕ) : ℝ) / (n : ℝ) := by
  constructor <;> simp [CD.fit, scoresOf, thresholdOf, fitDesign, hrot]

/-- Witness for the amended C3 at a concrete rule-of-thumb detector. -/
theorem fit_rule_of_thumb_threshold_witness :
    cdR.rule_of_thumb = true ∧
    (thresholdOf (CD.fit pinvR pcaFitR lsqR cdR (0 : Mat 1 1) 0) =
      quantile (scoresOf (CD.fit pinvR pcaFitR lsqR cdR (0 : Mat 1 1) 0))
        (1 - (CD.fit pinvR pcaFitR lsqR cdR (0 : Mat 1 1) 0).contamination) ∧
    (CD.fit pinvR pcaFitR lsqR cdR (0 : Mat 1 1) 0).contamination =
      (((Finset.univ.filter fun i : Fin 1 =>
          4 / ((1 : ℕ) : ℝ) <
            Cooks_dist pinvR (fitDesign pcaFitR cdR 0) 0 (lsqR (fitDesign pcaFitR cdR 0) 0) i).card :
        ℕ) : ℝ) / ((1 : ℕ) : ℝ)) :=
  ⟨rfl, fit_rule_of_thumb_threshold pinvR pcaFitR lsqR cdR (0 : Mat 1 1) 0 rfl⟩

/-- C10: rule-of-thumb `fit` overwrites the contamination attribute with the
observed fraction without any range check: on the concrete instance it
becomes `0`, outside the constructor-documented interval `(0, 0.5)`, and
this out-of-range value is exactly what the subsequent threshold bookkeeping
consumes (the stored threshold is the `(1 - 0)`-quantile of the stored
scores). -/
theorem fit_contamination_out_of_range :
    cd0.rule_of_thumb = true ∧
    cd0'.contamination = 0 ∧
    ¬ (0 < cd0'.contamination ∧ cd0'.contamination < 1/2) ∧
    thresholdOf cd0' = quantile (scoresOf cd0') (1 - cd0'.contamination) := by
  refine ⟨rfl, cd0'_contamination, ?_, ?_⟩
  · rw [cd0'_contamination]
    norm_num
  · simp [cd0', CD.fit, thresholdOf, scoresOf]

end
